import Mathlib

/-!
Shallow embedding of the LRCP session transport (problem 7) from
src/7/message.go and src/7/session.go: the wire codec (parseMessage, encode,
pack) and the per-session state (read worker, write worker, stream surface).
Go bytes are modelled as natural numbers, Go ints as Int, byte slices as
lists.  All definitions are translated from the Go source; comments cite the
function they embed.
-/

namespace LRCP

/-- message.go: `const maxInt = 2147483647` (2^31 - 1). -/
def maxInt : Int := 2147483647

/-- message.go: `const maxMessageSize = 999`. -/
def maxMessageSize : Nat := 999

/-- The byte values of a string literal (a Go string is a byte sequence). -/
def strBytes (s : String) : List Nat := s.data.map Char.toNat

/-- Byte sequence of the Go string "connect". -/
def connectTok : List Nat := strBytes "connect"

/-- Byte sequence of the Go string "data". -/
def dataTok : List Nat := strBytes "data"

/-- Byte sequence of the Go string "ack". -/
def ackTok : List Nat := strBytes "ack"

/-- Byte sequence of the Go string "close". -/
def closeTok : List Nat := strBytes "close"

/-- Decimal digit bytes, most significant first: what `fmt.Sprintf "%d"`
produces for a nonnegative value (ASCII digit for 0 is byte 48). -/
def natDecimal (n : Nat) : List Nat :=
  if n = 0 then [48] else ((Nat.digits 10 n).map (fun d => d + 48)).reverse

/-- `fmt.Sprintf "%d"` for a Go int: a 45 (ASCII minus) then digits when
negative, plain digits otherwise. -/
def intDecimal (n : Int) : List Nat :=
  if n < 0 then 45 :: natDecimal (-n).toNat else natDecimal n.toNat

/-- message.go `type Msg struct`.  The Go `Type` string is kept as its byte
sequence.  Fields unused by a given message type default to zero values, as
in Go. -/
structure Msg where
  type_ : List Nat := []
  session : Int := 0
  pos : Int := 0
  data : List Nat := []
  length : Int := 0
deriving DecidableEq, Repr

/-- message.go `Msg.encode` (lines 61-76): the `data` byte slice built for
each message type; `none` for an unknown type.  (The Go function then copies
the bytes into the caller's buffer, truncating at the buffer's length, and
returns the count copied; the callers pass a maxMessageSize-byte buffer.) -/
def encode (m : Msg) : Option (List Nat) :=
  if m.type_ = connectTok then
    some (strBytes "/connect/" ++ intDecimal m.session ++ [47])
  else if m.type_ = dataTok then
    some (strBytes "/data/" ++ intDecimal m.session ++ [47] ++
      intDecimal m.pos ++ [47] ++ m.data ++ [47])
  else if m.type_ = ackTok then
    some (strBytes "/ack/" ++ intDecimal m.session ++ [47] ++
      intDecimal m.length ++ [47])
  else if m.type_ = closeTok then
    some (strBytes "/close/" ++ intDecimal m.session ++ [47])
  else none

/-- message.go `pack`: `c == '/' || c == '\\'` (bytes 47 and 92), the bytes
that take a two-byte escape on the wire. -/
def escChar (c : Nat) : Bool := c = 47 || c = 92

/-- message.go `pack` lines 90-95: the count of bytes needing escapes. -/
def slashes (bs : List Nat) : Nat := bs.countP escChar

/-- message.go `pack` line 87: the bytes of `fmt.Sprintf "/data/%d/%d//"`,
whose length is subtracted from maxMessageSize. -/
def packHeader (session pos : Int) : List Nat :=
  strBytes "/data/" ++ intDecimal session ++ [47] ++ intDecimal pos ++ [47, 47]

/-- message.go `pack` line 87: `maxCopy := maxMessageSize - len(...)`. -/
def packMaxCopy (session pos : Int) : Int :=
  (maxMessageSize : Int) - ((packHeader session pos).length : Int)

/-- message.go `pack` line 97: `copySize := min(maxCopy, len(data)+slashes)`
(clamped at zero: with a negative bound the copy loop would not run). -/
def packCopySize (session pos : Int) (data : List Nat) : Nat :=
  (min (packMaxCopy session pos) ((data.length + slashes data : Nat) : Int)).toNat

/-- message.go `pack` lines 108-123, the copy loop.  `i` is the count of
escaped output bytes written so far; the result is the count of further
source bytes consumed (the increments of `j`).  The loop runs while
`i < copySize`; an escapable byte is consumed only when both the backslash
and the byte fit (`i+1 >= copySize` trims the frame and breaks). -/
def packLoop (copySize : Nat) : List Nat → Nat → Nat
  | [], _ => 0
  | c :: rest, i =>
    if i < copySize then
      if escChar c then
        if i + 1 < copySize then packLoop copySize rest (i + 2) + 1 else 0
      else packLoop copySize rest (i + 1) + 1
    else 0

/-- The output bytes the copy loop of message.go `pack` writes into `m.Data`
(escapes inserted); same recursion as `packLoop`. -/
def packOut (copySize : Nat) : List Nat → Nat → List Nat
  | [], _ => []
  | c :: rest, i =>
    if i < copySize then
      if escChar c then
        if i + 1 < copySize then 92 :: c :: packOut copySize rest (i + 2) else []
      else c :: packOut copySize rest (i + 1)
    else []

/-- message.go `Msg.pack` (lines 83-126): the value returned, i.e. the count
`j` of source bytes consumed. -/
def pack (session pos : Int) (data : List Nat) : Nat :=
  packLoop (packCopySize session pos data) data 0

/-- message.go `Msg.pack`: the `m.Data` payload produced (escaped bytes). -/
def packData (session pos : Int) (data : List Nat) : List Nat :=
  packOut (packCopySize session pos data) data 0

/-- message.go `Msg.Validate` (lines 36-57) specialised to a data message:
no error iff the session id, the pos and `pos + len(data)` are all at most
maxInt. -/
def validateOk (session pos : Int) (payload : List Nat) : Prop :=
  session ≤ maxInt ∧ pos ≤ maxInt ∧ pos + (payload.length : Int) ≤ maxInt

instance (session pos : Int) (payload : List Nat) :
    Decidable (validateOk session pos payload) := by
  unfold validateOk; infer_instance

/-- message.go `parseField` (lines 219-241): scan to the next unescaped 47
('/'), keeping escape pairs (92 followed by 92 or 47) inside the field;
returns the field and the remainder after the slash, `none` if a backslash
is followed by a non-escapable byte or no unescaped slash is found. -/
def parseField : List Nat → Option (List Nat × List Nat)
  | [] => none
  | c :: rest =>
    if c = 92 then
      match rest with
      | [] => none
      | d :: rest2 =>
        if d = 92 ∨ d = 47 then
          match parseField rest2 with
          | none => none
          | some (f, r) => some (92 :: d :: f, r)
        else none
    else if c = 47 then some ([], rest)
    else
      match parseField rest with
      | none => none
      | some (f, r) => some (c :: f, r)

/-- Is the byte an ASCII decimal digit (48..57)? -/
def isDigitByte (c : Nat) : Bool := decide (48 ≤ c ∧ c ≤ 57)

/-- Value of a most-significant-first digit byte string. -/
def digitVal (bs : List Nat) : Nat := bs.foldl (fun a c => 10 * a + (c - 48)) 0

/-- Nonempty and all bytes decimal digits. -/
def allDigits (bs : List Nat) : Bool := !bs.isEmpty && bs.all isDigitByte

/-- Largest Go int (64-bit). -/
def int64Max : Int := 9223372036854775807

/-- The digits part of `strconv.Atoi`: value if the bytes are one or more
decimal digits, `none` otherwise. -/
def atoiUnsigned (bs : List Nat) : Option Nat :=
  if allDigits bs then some (digitVal bs) else none

/-- Model of Go `strconv.Atoi`: an optional single leading 43 ('+') or 45
('-') sign, one or more digits, error when out of the 64-bit int range. -/
def goAtoi (bs : List Nat) : Option Int :=
  match bs with
  | [] => none
  | c :: rest =>
    if c = 43 then
      match atoiUnsigned rest with
      | none => none
      | some v => if (v : Int) > int64Max then none else some (v : Int)
    else if c = 45 then
      match atoiUnsigned rest with
      | none => none
      | some v => if (v : Int) > int64Max + 1 then none else some (-(v : Int))
    else
      match atoiUnsigned bs with
      | none => none
      | some v => if (v : Int) > int64Max then none else some (v : Int)

/-- message.go `parseInt` (lines 244-253): `strconv.Atoi`, then error when
the value exceeds maxInt.  (There is no lower bound: negative values pass.) -/
def parseInt (bs : List Nat) : Option Int :=
  match goAtoi bs with
  | none => none
  | some i => if i > maxInt then none else some i

/-- message.go `parseData` unescape loop (lines 265-289); the Bool is the
`escape` flag. -/
def parseDataLoop : Bool → List Nat → Option (List Nat)
  | escape, [] => if escape then none else some []
  | true, c :: rest =>
    if c = 92 ∨ c = 47 then
      match parseDataLoop false rest with
      | none => none
      | some out => some (c :: out)
    else none
  | false, c :: rest =>
    if c = 92 then parseDataLoop true rest
    else if c = 47 then none
    else
      match parseDataLoop false rest with
      | none => none
      | some out => some (c :: out)

/-- message.go `parseData` (lines 256-290): a clone when no 47/92 byte
occurs, otherwise the unescape loop. -/
def parseData (bs : List Nat) : Option (List Nat) :=
  if bs.all (fun c => !escChar c) then some bs else parseDataLoop false bs

/-- message.go `parseMessage` (lines 128-215).  Leading '/', slash-delimited
type token, session, then per-type fields, rejecting trailing bytes. -/
def parseMessage (bs : List Nat) : Option Msg :=
  match bs with
  | [] => none
  | c :: rest0 =>
    if c ≠ 47 then none
    else
      match parseField rest0 with
      | none => none
      | some (t, rest1) =>
        if ¬(t = connectTok ∨ t = dataTok ∨ t = ackTok ∨ t = closeTok) then none
        else
          match parseField rest1 with
          | none => none
          | some (sessionF, rest2) =>
            match parseInt sessionF with
            | none => none
            | some sessionInt =>
              if t = connectTok then
                if rest2 = [] then some { type_ := t, session := sessionInt }
                else none
              else if t = dataTok then
                match parseField rest2 with
                | none => none
                | some (rawPos, rest3) =>
                  match parseInt rawPos with
                  | none => none
                  | some posInt =>
                    match parseField rest3 with
                    | none => none
                    | some (rawData, rest4) =>
                      if rest4 ≠ [] then none
                      else
                        match parseData rawData with
                        | none => none
                        | some payload =>
                          some { type_ := t, session := sessionInt,
                                 pos := posInt, data := payload }
              else if t = ackTok then
                match parseField rest2 with
                | none => none
                | some (rawLength, rest3) =>
                  if rest3 ≠ [] then none
                  else
                    match parseInt rawLength with
                    | none => none
                    | some lengthInt =>
                      some { type_ := t, session := sessionInt,
                             length := lengthInt }
              else
                if rest2 = [] then some { type_ := t, session := sessionInt }
                else none

/-! ## Session state (session.go)

One record holds the per-session state of session.go's `Session` struct
(readBuffer, readIndex, writeBuffer, the atomics lastAck / maxAckable, and
the context-cancelled flag) together with the write worker's local cursor
`writeIndex` (a local variable of `writeWorker`, carried here so the worker
loop can be modelled as a step function). -/

structure SessionSt where
  readBuffer : List Nat := []
  readIndex : Nat := 0
  writeBuffer : List Nat := []
  lastAck : Int := 0
  maxAckable : Int := 0
  closed : Bool := false
  writeIndex : Int := 0
deriving DecidableEq, Repr

/-- The initial state built by `NewSession` (session.go lines 71-89): empty
buffers, zeroed cursors and atomics, context live. -/
def initSession : SessionSt := {}

/-- session.go `Session.appendRead` (lines 122-146): returns the new state,
the length returned (the final length of all received data) and whether the
append happened (`err == nil`).  Note the guard on line 141 computes
`pos + len(s.readBuffer)`, not `pos + len(b)`. -/
def appendRead (s : SessionSt) (pos : Int) (b : List Nat) :
    SessionSt × Nat × Bool :=
  if s.closed then (s, s.readBuffer.length, false)
  else if pos < 0 then (s, s.readBuffer.length, false)
  else if pos ≠ (s.readBuffer.length : Int) then (s, s.readBuffer.length, false)
  else if pos + (s.readBuffer.length : Int) > maxInt then
    (s, s.readBuffer.length, false)
  else
    ({ s with readBuffer := s.readBuffer ++ b },
      s.readBuffer.length + b.length, true)

/-- session.go `Session.Read` (lines 97-118), the body once the select fires:
`none` is `io.EOF` (closed and fully drained); otherwise the slice copied out
(up to `blen`, the caller's buffer length) and the advanced cursor. -/
def sessionRead (s : SessionSt) (blen : Nat) : SessionSt × Option (List Nat) :=
  if s.closed ∧ s.readBuffer.length ≤ s.readIndex then (s, none)
  else if s.readBuffer.length ≤ s.readIndex then (s, some [])
  else
    let out := (s.readBuffer.drop s.readIndex).take blen
    ({ s with readIndex := s.readIndex + out.length }, some out)

/-- session.go `Session.Write` (lines 150-165): returns the new state, the
int returned and whether the write succeeded (`err == nil`). -/
def sessionWrite (s : SessionSt) (b : List Nat) : SessionSt × Nat × Bool :=
  if s.closed then (s, s.writeBuffer.length, false)
  else if (s.writeBuffer.length : Int) + (b.length : Int) > maxInt then
    (s, s.writeBuffer.length, false)
  else ({ s with writeBuffer := s.writeBuffer ++ b }, b.length, true)

/-- Observable outputs of a session step: frames sent to the peer and byte
slices returned to the application by `Read`. -/
inductive Out where
  | ackFrame (n : Nat)
  | dataFrame (pos : Int) (n : Nat)
  | closeFrame
  | readOut (bs : List Nat)
  | readEOF
deriving DecidableEq, Repr

/-- Events of the per-session machine: each is one critical section of
session.go, interleaved arbitrarily.
`dataMsg`/`ackMsg`: the read worker handles a Data/Ack frame (lines 191-227);
`readCall`: the application calls `Read`; `appWrite`: the application calls
`Write`; `tick`: the retransmission ticker fires in `writeWorker` (lines
299-302); `send`: one `tryWrite` pass of `writeWorker` (lines 254-292);
`closeEv`: `Session.Close` cancels the context. -/
inductive Ev where
  | dataMsg (pos : Int) (b : List Nat)
  | ackMsg (len : Int)
  | readCall (blen : Nat)
  | appWrite (b : List Nat)
  | tick
  | send
  | closeEv
deriving DecidableEq, Repr

/-- One `tryWrite` pass of session.go `writeWorker` (lines 254-292): nothing
to send when the cursor is at or past the buffer end; otherwise pack from the
cursor, drop the frame if `Validate` fails, else emit it, advance the cursor
by the count of source bytes packed and raise maxAckable to the cursor.
`id` is the session id (used by pack for the header length).  A socket send
error makes the Go code return without advancing — the same state as the
event not firing, so the pure step models the successful send. -/
def tryWrite (id : Int) (s : SessionSt) : SessionSt × List Out :=
  if (s.writeBuffer.length : Int) ≤ s.writeIndex then (s, [])
  else if validateOk id s.writeIndex
      (packData id s.writeIndex (s.writeBuffer.drop s.writeIndex.toNat)) then
    ({ s with
        writeIndex := s.writeIndex +
          (pack id s.writeIndex (s.writeBuffer.drop s.writeIndex.toNat) : Int),
        maxAckable := max s.maxAckable (s.writeIndex +
          (pack id s.writeIndex (s.writeBuffer.drop s.writeIndex.toNat) : Int)) },
      [.dataFrame s.writeIndex (pack id s.writeIndex (s.writeBuffer.drop s.writeIndex.toNat))])
  else (s, [])

/-- One step of the session machine.  Worker events (`dataMsg`, `ackMsg`,
`tick`, `send`) have no effect once the session is closed (the worker
goroutines have returned); `readCall` and `appWrite` follow `Read`/`Write`,
which handle the closed state themselves. -/
def step (id : Int) (s : SessionSt) : Ev → SessionSt × List Out
  | .dataMsg pos b =>
    -- readWorker lines 214-227: append, then always ack the returned length.
    if s.closed then (s, [])
    else
      let r := appendRead s pos b
      (r.1, [.ackFrame r.2.1])
  | .ackMsg len =>
    -- readWorker lines 191-213: a length above maxAckable sends a close and
    -- tears the session down; otherwise lastAck is raised monotonically.
    if s.closed then (s, [])
    else if len > s.maxAckable then ({ s with closed := true }, [.closeFrame])
    else if len > s.lastAck then ({ s with lastAck := len }, [])
    else (s, [])
  | .readCall blen =>
    let r := sessionRead s blen
    (r.1, [match r.2 with | none => .readEOF | some bs => .readOut bs])
  | .appWrite b => ((sessionWrite s b).1, [])
  | .tick =>
    -- writeWorker lines 299-302: reset the cursor to lastAck.
    if s.closed then (s, []) else ({ s with writeIndex := s.lastAck }, [])
  | .send => if s.closed then (s, []) else tryWrite id s
  | .closeEv => ({ s with closed := true }, [])

/-- Run the session machine over a list of events, collecting outputs. -/
def run (id : Int) (s : SessionSt) : List Ev → SessionSt × List Out
  | [] => (s, [])
  | e :: es =>
    let r := step id s e
    let r2 := run id r.1 es
    (r2.1, r.2 ++ r2.2)

/-- The bytes delivered to the application: concatenation of the `readOut`
outputs, in order. -/
def delivered (outs : List Out) : List Nat :=
  outs.foldr (fun o acc => match o with | .readOut bs => bs ++ acc | _ => acc) []

/-- Length of a byte string once every 47/92 byte is expanded to its
two-byte escape: the on-wire size of a data payload. -/
def escLen (bs : List Nat) : Nat :=
  (bs.map (fun c => if escChar c then 2 else 1)).sum

/-!  ## Supporting lemmas  -/

theorem take_length_take {α : Type} (l : List α) (n : Nat) :
    l.take ((l.take n).length) = l.take n := by
  rcases le_total n l.length with h | h
  · rw [List.length_take, min_eq_left h]
  · rw [List.length_take, min_eq_right h, List.take_length, List.take_of_length_le h]

theorem escLen_nil : escLen [] = 0 := rfl

theorem escLen_cons (c : Nat) (l : List Nat) :
    escLen (c :: l) = (if escChar c then 2 else 1) + escLen l := by
  simp [escLen]

theorem escLen_eq_length_add_slashes (l : List Nat) :
    escLen l = l.length + slashes l := by
  induction l with
  | nil => rfl
  | cons c l ih =>
    rw [escLen_cons, ih]
    simp only [slashes, List.countP_cons, List.length_cons]
    by_cases h : escChar c <;> simp [h] <;> omega

theorem escLen_take_le (l : List Nat) (k : Nat) : escLen (l.take k) ≤ escLen l := by
  induction l generalizing k with
  | nil => simp [escLen]
  | cons c l ih =>
    cases k with
    | zero => simp [escLen]
    | succ k =>
      rw [List.take_succ_cons, escLen_cons, escLen_cons]
      exact Nat.add_le_add_left (ih k) _

/-!  ## C10: Session.Write contract  -/

/-- C10.  `Session.Write(b)` fails iff the session is closed or
`len(writeBuffer) + len(b)` exceeds maxInt (equivalently, reaches 2^31); on
failure the buffer is unchanged; on success the bytes are appended verbatim
and the returned count is `len(b)`. -/
theorem c10_write_contract (s : SessionSt) (b : List Nat) :
    ((sessionWrite s b).2.2 = false ↔
      s.closed = true ∨ (s.writeBuffer.length : Int) + (b.length : Int) > maxInt) ∧
    ((sessionWrite s b).2.2 = false → (sessionWrite s b).1 = s) ∧
    ((sessionWrite s b).2.2 = true →
      (sessionWrite s b).1 = { s with writeBuffer := s.writeBuffer ++ b } ∧
      (sessionWrite s b).2.1 = b.length) := by
  unfold sessionWrite
  split_ifs with h1 h2 <;> simp_all

/-- Witness for `c10_write_contract` at a concrete state and input. -/
theorem c10_write_contract_witness :
    ((sessionWrite initSession [1, 2]).2.2 = false ↔
      initSession.closed = true ∨
        (initSession.writeBuffer.length : Int) + (([1, 2] : List Nat).length : Int) > maxInt) ∧
    ((sessionWrite initSession [1, 2]).2.2 = false → (sessionWrite initSession [1, 2]).1 = initSession) ∧
    ((sessionWrite initSession [1, 2]).2.2 = true →
      (sessionWrite initSession [1, 2]).1 =
        { initSession with writeBuffer := initSession.writeBuffer ++ [1, 2] } ∧
      (sessionWrite initSession [1, 2]).2.1 = ([1, 2] : List Nat).length) :=
  c10_write_contract initSession [1, 2]

/-!  ## C9: Session.Read end-of-stream  -/

/-- C9.  `Session.Read` returns EOF exactly when the session is closed and
the cursor has reached the end of the receive buffer; otherwise it returns
the slice of up to `blen` bytes starting at the cursor and advances the
cursor by exactly the number of bytes copied, leaving the buffer itself
untouched. -/
theorem c9_read_contract (s : SessionSt) (blen : Nat)
    (hidx : s.readIndex ≤ s.readBuffer.length) :
    ((sessionRead s blen).2 = none ↔
      s.closed = true ∧ s.readIndex = s.readBuffer.length) ∧
    (∀ out, (sessionRead s blen).2 = some out →
      out = (s.readBuffer.drop s.readIndex).take blen ∧
      out.length = min blen (s.readBuffer.length - s.readIndex) ∧
      (sessionRead s blen).1.readIndex = s.readIndex + out.length ∧
      (sessionRead s blen).1.readBuffer = s.readBuffer ∧
      (sessionRead s blen).1.closed = s.closed) := by
  unfold sessionRead
  split_ifs with h1 h2
  · constructor
    · constructor
      · intro _
        exact ⟨h1.1, le_antisymm hidx h1.2⟩
      · intro _
        rfl
    · intro out hout
      exact absurd hout (by simp)
  · have hcl : ¬(s.closed = true) := fun hc => h1 ⟨hc, h2⟩
    refine ⟨by simp [hcl], ?_⟩
    intro out hout
    have hout' : out = [] := by simpa using hout.symm
    subst hout'
    have hdrop : s.readBuffer.drop s.readIndex = [] :=
      List.drop_eq_nil_of_le h2
    exact ⟨by simp [hdrop], by simp; omega, by simp, rfl, rfl⟩
  · refine ⟨by simp; intro _; omega, ?_⟩
    intro out hout
    have hout' : out = (s.readBuffer.drop s.readIndex).take blen := by
      simpa using hout.symm
    subst hout'
    refine ⟨rfl, ?_, by simp, rfl, rfl⟩
    simp [List.length_take, List.length_drop]

/-- Witness for `c9_read_contract` at a concrete state: reading 2 bytes from
cursor 1 of a 3-byte buffer. -/
theorem c9_read_contract_witness :
    ((sessionRead { readBuffer := [5, 6, 7], readIndex := 1 } 2).2 = none ↔
      ({ readBuffer := [5, 6, 7], readIndex := 1 } : SessionSt).closed = true ∧
      ({ readBuffer := [5, 6, 7], readIndex := 1 } : SessionSt).readIndex =
        ({ readBuffer := [5, 6, 7], readIndex := 1 } : SessionSt).readBuffer.length) ∧
    ([6, 7] = (({ readBuffer := [5, 6, 7], readIndex := 1 } : SessionSt).readBuffer.drop
        ({ readBuffer := [5, 6, 7], readIndex := 1 } : SessionSt).readIndex).take 2 ∧
      ([6, 7] : List Nat).length = min 2
        (({ readBuffer := [5, 6, 7], readIndex := 1 } : SessionSt).readBuffer.length -
          ({ readBuffer := [5, 6, 7], readIndex := 1 } : SessionSt).readIndex) ∧
      (sessionRead { readBuffer := [5, 6, 7], readIndex := 1 } 2).1.readIndex =
        ({ readBuffer := [5, 6, 7], readIndex := 1 } : SessionSt).readIndex +
          ([6, 7] : List Nat).length ∧
      (sessionRead { readBuffer := [5, 6, 7], readIndex := 1 } 2).1.readBuffer =
        ({ readBuffer := [5, 6, 7], readIndex := 1 } : SessionSt).readBuffer ∧
      (sessionRead { readBuffer := [5, 6, 7], readIndex := 1 } 2).1.closed =
        ({ readBuffer := [5, 6, 7], readIndex := 1 } : SessionSt).closed) :=
  ⟨(c9_read_contract { readBuffer := [5, 6, 7], readIndex := 1 } 2 (by decide)).1,
    (c9_read_contract { readBuffer := [5, 6, 7], readIndex := 1 } 2 (by decide)).2
      [6, 7] (by decide)⟩

/-!  ## C2: Data-frame handling  -/

theorem list_ne_append_singleton {α : Type} (l : List α) (x : α) : l ≠ l ++ [x] := by
  intro h
  have := congrArg List.length h
  simp at this

theorem appendRead_overflow_reject (buf : List Nat)
    (h : (buf.length : Int) = 1073741824) :
    (LRCP.appendRead { readBuffer := buf } 1073741824 [7]).1
      = { readBuffer := buf } := by
  unfold LRCP.appendRead
  rw [if_neg (by simp), if_neg (by simp), if_neg (by simp [h]),
    if_pos (by simp only [SessionSt.mk.injEq]; simp [h, maxInt])]

/-- C2 counterexample.  With `recv_buffer` of length 2^30 and a Data frame at
`pos = 2^30` (exactly the current length), the claim demands an append, but
`appendRead`'s guard `pos + len(readBuffer) > maxInt` (session.go line 141)
trips — `2^30 + 2^30 = 2^31 > 2^31 - 1` — so nothing is appended. -/
theorem c2_counterexample :
    (LRCP.appendRead { readBuffer := List.replicate 1073741824 0 } 1073741824 [7]).1.readBuffer
        = List.replicate 1073741824 0 ∧
    (1073741824 : Int) = ((List.replicate 1073741824 (0 : Nat)).length : Int) ∧
    ({ readBuffer := List.replicate 1073741824 0 } : SessionSt).closed = false ∧
    (LRCP.appendRead { readBuffer := List.replicate 1073741824 0 } 1073741824 [7]).1.readBuffer
        ≠ List.replicate 1073741824 0 ++ [7] := by
  have hlen : ((List.replicate 1073741824 (0 : Nat)).length : Int) = 1073741824 := by
    rw [List.length_replicate]; norm_num
  have happ := appendRead_overflow_reject (List.replicate 1073741824 0) hlen
  exact ⟨by rw [happ], hlen.symm, rfl,
    by rw [happ]; exact list_ne_append_singleton _ 7⟩

/-- C2 (amended).  For an open session, a Data frame handled by the read
worker appends iff `pos` equals the buffer length *and* the overflow guard
`pos + len(recv_buffer) ≤ maxInt` passes; otherwise the buffer is unchanged.
In every case the read worker emits exactly one Ack whose value is the
receive-buffer length after the handling. -/
theorem c2_data_frame_handling (id : Int) (s : SessionSt) (pos : Int) (b : List Nat)
    (hopen : s.closed = false) :
    (pos = (s.readBuffer.length : Int) ∧ pos + (s.readBuffer.length : Int) ≤ maxInt →
      (appendRead s pos b).1.readBuffer = s.readBuffer ++ b ∧
      (appendRead s pos b).2.1 = s.readBuffer.length + b.length) ∧
    (pos ≠ (s.readBuffer.length : Int) ∨ pos + (s.readBuffer.length : Int) > maxInt →
      (appendRead s pos b).1 = s ∧
      (appendRead s pos b).2.1 = s.readBuffer.length) ∧
    (appendRead s pos b).2.1 = (appendRead s pos b).1.readBuffer.length ∧
    step id s (.dataMsg pos b) = ((appendRead s pos b).1, [.ackFrame (appendRead s pos b).2.1]) := by
  have hstep : step id s (.dataMsg pos b) =
      ((appendRead s pos b).1, [.ackFrame (appendRead s pos b).2.1]) := by
    simp [step, hopen]
  refine ⟨?_, ?_, ?_, hstep⟩
  · rintro ⟨hpos, hover⟩
    unfold appendRead
    rw [if_neg (by simp [hopen]), if_neg (by omega), if_neg (by omega),
      if_neg (by omega)]
    simp
  · intro hbad
    unfold appendRead
    rw [if_neg (by simp [hopen])]
    rcases hbad with hne | hover
    · by_cases hneg : pos < 0
      · rw [if_pos hneg]; exact ⟨rfl, rfl⟩
      · rw [if_neg hneg, if_pos hne]; exact ⟨rfl, rfl⟩
    · by_cases hneg : pos < 0
      · rw [if_pos hneg]; exact ⟨rfl, rfl⟩
      · by_cases hne : pos ≠ (s.readBuffer.length : Int)
        · rw [if_neg hneg, if_pos hne]; exact ⟨rfl, rfl⟩
        · rw [if_neg hneg, if_neg hne, if_pos (by omega)]; exact ⟨rfl, rfl⟩
  · unfold appendRead
    split_ifs <;> simp

/-- Witness for `c2_data_frame_handling`: an in-order frame on a fresh
session. -/
theorem c2_data_frame_handling_witness :
    ((0 : Int) = ((initSession.readBuffer.length : Nat) : Int) ∧
        (0 : Int) + (initSession.readBuffer.length : Int) ≤ maxInt →
      (appendRead initSession 0 [1, 2]).1.readBuffer = initSession.readBuffer ++ [1, 2] ∧
      (appendRead initSession 0 [1, 2]).2.1 = initSession.readBuffer.length + ([1, 2] : List Nat).length) ∧
    ((0 : Int) ≠ (initSession.readBuffer.length : Int) ∨
        (0 : Int) + (initSession.readBuffer.length : Int) > maxInt →
      (appendRead initSession 0 [1, 2]).1 = initSession ∧
      (appendRead initSession 0 [1, 2]).2.1 = initSession.readBuffer.length) ∧
    (appendRead initSession 0 [1, 2]).2.1 = (appendRead initSession 0 [1, 2]).1.readBuffer.length ∧
    step 3 initSession (.dataMsg 0 [1, 2]) =
      ((appendRead initSession 0 [1, 2]).1, [.ackFrame (appendRead initSession 0 [1, 2]).2.1]) :=
  c2_data_frame_handling 3 initSession 0 [1, 2] rfl

/-!  ## C8: overflow does not close the session  -/

/-- C8 counterexample.  A Data frame with `pos + len(bytes) = 2^31 + 1 ≥ 2^31`
handled by the read worker leaves the session open (the claim demands a
transition to Closed): the code merely refuses the append and acks. -/
theorem c8_counterexample :
    (step 0 initSession (.dataMsg 2147483647 [1, 2])).1.closed = false ∧
    (2147483647 : Int) + 2 ≥ 2147483648 ∧
    (step 0 initSession (.dataMsg 2147483647 [1, 2])).2 = [.ackFrame 0] := by
  decide

/-- C8 (amended).  Handling a Data frame never closes the session, whatever
`pos` and the payload are: `appendRead` (and the read worker's data branch)
preserve the closed flag; an oversized or out-of-place frame is merely
rejected — buffer unchanged, current length acked (see
`c2_data_frame_handling`). -/
theorem c8_data_never_closes (id : Int) (s : SessionSt) (pos : Int) (b : List Nat) :
    (appendRead s pos b).1.closed = s.closed ∧
    (step id s (.dataMsg pos b)).1.closed = s.closed ∧
    (pos + (s.readBuffer.length : Int) > maxInt ∧ 0 ≤ pos →
      (appendRead s pos b).1.readBuffer = s.readBuffer) := by
  refine ⟨?_, ?_, ?_⟩
  · unfold appendRead
    split_ifs <;> rfl
  · unfold step
    by_cases hc : s.closed <;> simp [hc]
    · unfold appendRead
      split_ifs <;> simp [hc]
  · rintro ⟨hover, hpos⟩
    unfold appendRead
    split_ifs <;> rfl

/-- Witness for `c8_data_never_closes` at the overflow input. -/
theorem c8_data_never_closes_witness :
    (appendRead initSession 2147483647 [1, 2]).1.closed = initSession.closed ∧
    (step 0 initSession (.dataMsg 2147483647 [1, 2])).1.closed = initSession.closed ∧
    ((2147483647 : Int) + (initSession.readBuffer.length : Int) > maxInt ∧ (0 : Int) ≤ 2147483647 →
      (appendRead initSession 2147483647 [1, 2]).1.readBuffer = initSession.readBuffer) :=
  c8_data_never_closes 0 initSession 2147483647 [1, 2]

/-!  ## C1: in-order prefix delivery  -/

theorem delivered_append (a b : List Out) :
    delivered (a ++ b) = delivered a ++ delivered b := by
  induction a with
  | nil => rfl
  | cons o a ih => cases o <;> simp [delivered] <;> simp [delivered] at ih <;> simp [ih]

/-- Each step preserves the read-side invariant `readIndex ≤ len readBuffer`
and extends `readBuffer.take readIndex` exactly by the bytes the step
delivered to the application. -/
theorem step_read_fields (id : Int) (s : SessionSt) (e : Ev)
    (h : s.readIndex ≤ s.readBuffer.length) :
    (step id s e).1.readIndex ≤ (step id s e).1.readBuffer.length ∧
    (step id s e).1.readBuffer.take (step id s e).1.readIndex =
      s.readBuffer.take s.readIndex ++ delivered (step id s e).2 := by
  cases e with
  | dataMsg pos b =>
    by_cases hc : s.closed = true
    · simp [step, hc, delivered, h]
    · simp only [step]
      rw [if_neg hc]
      unfold appendRead
      rw [if_neg hc]
      split_ifs with h2 h3 h4
      · exact ⟨h, by simp [delivered]⟩
      · exact ⟨h, by simp [delivered]⟩
      · exact ⟨h, by simp [delivered]⟩
      · constructor
        · simp only [List.length_append]
          omega
        · simp only [delivered, List.foldr]
          rw [List.append_nil]
          exact List.take_append_of_le_length h
  | ackMsg len =>
    simp only [step]
    split_ifs <;> simp [delivered, h]
  | readCall blen =>
    simp only [step]
    unfold sessionRead
    split_ifs with h1 h2
    · simp [delivered, h]
    · simp [delivered, h]
    · simp only [delivered, List.foldr]
      have hlt : s.readIndex < s.readBuffer.length := by omega
      constructor
      · simp only [List.length_take, List.length_drop]
        omega
      · rw [List.take_add, take_length_take]
        simp
  | appWrite b =>
    simp only [step]
    unfold sessionWrite
    split_ifs <;> simp [delivered, h]
  | tick =>
    simp only [step]
    split_ifs <;> simp [delivered, h]
  | send =>
    simp only [step]
    split_ifs with h1
    · simp [delivered, h]
    · unfold tryWrite
      split_ifs <;> simp [delivered, h]
  | closeEv => simp [step, delivered, h]

/-- Over any event trace, the bytes delivered by `Read` are exactly the
consumed prefix of the receive buffer. -/
theorem run_delivered (id : Int) (evs : List Ev) : ∀ s : SessionSt,
    s.readIndex ≤ s.readBuffer.length →
    (run id s evs).1.readIndex ≤ (run id s evs).1.readBuffer.length ∧
    (run id s evs).1.readBuffer.take (run id s evs).1.readIndex =
      s.readBuffer.take s.readIndex ++ delivered (run id s evs).2 := by
  induction evs with
  | nil =>
    intro s h
    constructor
    · simpa [run]
    · simp [run, delivered]
  | cons e evs ih =>
    intro s h
    have hstep := step_read_fields id s e h
    have hrest := ih (step id s e).1 hstep.1
    simp only [run]
    refine ⟨hrest.1, ?_⟩
    rw [delivered_append, ← List.append_assoc, ← hstep.2, hrest.2]

/-- C1.  (1) The receive buffer is only ever extended by appending the
payload of a Data frame whose `pos` equals the current buffer length; every
other step leaves it unchanged.  (2) Starting from a fresh session, the
concatenation of the byte slices returned by successive `Read` calls equals
`recv_buffer.take recv_cursor` — a prefix of the receive buffer, which is
itself the in-order concatenation of the accepted frames' payloads. -/
theorem c1_in_order_delivery (id : Int) :
    (∀ (s : SessionSt) (e : Ev),
      (step id s e).1.readBuffer = s.readBuffer ∨
      ∃ pos b, e = .dataMsg pos b ∧ pos = (s.readBuffer.length : Int) ∧
        (step id s e).1.readBuffer = s.readBuffer ++ b) ∧
    (∀ evs : List Ev,
      delivered (run id initSession evs).2 =
        (run id initSession evs).1.readBuffer.take
          (run id initSession evs).1.readIndex ∧
      delivered (run id initSession evs).2 <+: (run id initSession evs).1.readBuffer) := by
  constructor
  · intro s e
    cases e with
    | dataMsg pos b =>
      by_cases hc : s.closed = true
      · left; simp [step, hc]
      · simp only [step]
        rw [if_neg hc]
        unfold appendRead
        rw [if_neg hc]
        split_ifs with h2 h3 h4
        · left; rfl
        · left; rfl
        · left; rfl
        · right
          exact ⟨pos, b, rfl, by omega, rfl⟩
    | ackMsg len => left; simp only [step]; split_ifs <;> rfl
    | readCall blen =>
      left; simp only [step]; unfold sessionRead; split_ifs <;> rfl
    | appWrite b =>
      left; simp only [step]; unfold sessionWrite; split_ifs <;> rfl
    | tick => left; simp only [step]; split_ifs <;> rfl
    | send =>
      left; simp only [step]; split_ifs with h1
      · rfl
      · unfold tryWrite; split_ifs <;> rfl
    | closeEv => left; rfl
  · intro evs
    have h := run_delivered id evs initSession (by simp [initSession])
    have heq : delivered (run id initSession evs).2 =
        (run id initSession evs).1.readBuffer.take (run id initSession evs).1.readIndex := by
      rw [h.2]
      simp [initSession]
    exact ⟨heq, heq ▸ List.take_prefix _ _⟩

/-- Witness for `c1_in_order_delivery` on a concrete trace: two in-order
frames, a stale retransmit, and two reads. -/
theorem c1_in_order_delivery_witness :
    delivered (run 0 initSession
        [.dataMsg 0 [10, 20], .readCall 1, .dataMsg 0 [99], .dataMsg 2 [30], .readCall 8]).2 =
      (run 0 initSession
        [.dataMsg 0 [10, 20], .readCall 1, .dataMsg 0 [99], .dataMsg 2 [30], .readCall 8]).1.readBuffer.take
        (run 0 initSession
          [.dataMsg 0 [10, 20], .readCall 1, .dataMsg 0 [99], .dataMsg 2 [30], .readCall 8]).1.readIndex ∧
    delivered (run 0 initSession
        [.dataMsg 0 [10, 20], .readCall 1, .dataMsg 0 [99], .dataMsg 2 [30], .readCall 8]).2 <+:
      (run 0 initSession
        [.dataMsg 0 [10, 20], .readCall 1, .dataMsg 0 [99], .dataMsg 2 [30], .readCall 8]).1.readBuffer :=
  (c1_in_order_delivery 0).2
    [.dataMsg 0 [10, 20], .readCall 1, .dataMsg 0 [99], .dataMsg 2 [30], .readCall 8]

/-!  ## C3: Ack handling and its invariants  -/

/-- C3.  (1) An Ack whose length exceeds maxAckable sends a Close frame and
closes the session (the condition is only `len > maxAckable`, irrespective of
2^31).  (2) Otherwise lastAck is updated to `max lastAck len` and the session
stays open.  (3) lastAck is monotone non-decreasing under every step, and
(4) the invariant `lastAck ≤ maxAckable` is preserved by every step and (5)
holds initially — hence it holds in every reachable state. -/
theorem c3_ack_handling (id : Int) :
    (∀ (s : SessionSt) (len : Int), s.closed = false → len > s.maxAckable →
      step id s (.ackMsg len) = ({ s with closed := true }, [.closeFrame])) ∧
    (∀ (s : SessionSt) (len : Int), s.closed = false → len ≤ s.maxAckable →
      (step id s (.ackMsg len)).1.lastAck = max s.lastAck len ∧
      (step id s (.ackMsg len)).1.closed = false ∧
      (step id s (.ackMsg len)).2 = []) ∧
    (∀ (s : SessionSt) (e : Ev), s.lastAck ≤ (step id s e).1.lastAck) ∧
    (∀ (s : SessionSt) (e : Ev), s.lastAck ≤ s.maxAckable →
      (step id s e).1.lastAck ≤ (step id s e).1.maxAckable) ∧
    initSession.lastAck ≤ initSession.maxAckable := by
  refine ⟨?_, ?_, ?_, ?_, le_refl _⟩
  · intro s len hc hgt
    simp only [step]
    rw [if_neg (by simp [hc]), if_pos hgt]
  · intro s len hc hle
    simp only [step]
    rw [if_neg (by simp [hc]), if_neg (by omega)]
    split_ifs with hup
    · refine ⟨by simp; omega, by simp [hc], rfl⟩
    · refine ⟨by simp; omega, by simp [hc], rfl⟩
  · intro s e
    cases e with
    | dataMsg pos b =>
      simp only [step]
      split_ifs with hc
      · rfl
      · unfold appendRead
        split_ifs <;> simp
    | ackMsg len =>
      simp only [step]
      split_ifs <;> simp
      omega
    | readCall blen =>
      simp only [step]
      unfold sessionRead
      split_ifs <;> simp
    | appWrite b =>
      simp only [step]
      unfold sessionWrite
      split_ifs <;> simp
    | tick =>
      simp only [step]
      split_ifs <;> simp
    | send =>
      simp only [step]
      split_ifs with hc
      · rfl
      · unfold tryWrite
        split_ifs <;> simp
    | closeEv => simp [step]
  · intro s e hinv
    cases e with
    | dataMsg pos b =>
      simp only [step]
      split_ifs with hc
      · exact hinv
      · unfold appendRead
        split_ifs <;> simpa
    | ackMsg len =>
      simp only [step]
      split_ifs <;> simp_all
    | readCall blen =>
      simp only [step]
      unfold sessionRead
      split_ifs <;> simpa
    | appWrite b =>
      simp only [step]
      unfold sessionWrite
      split_ifs <;> simpa
    | tick =>
      simp only [step]
      split_ifs <;> simpa
    | send =>
      simp only [step]
      split_ifs with hc
      · exact hinv
      · unfold tryWrite
        split_ifs
        · exact hinv
        · exact le_trans hinv (le_max_left _ _)
        · exact hinv
    | closeEv => simpa [step]

/-- Witness for `c3_ack_handling`: an over-ack closes (even though the
length is far below 2^31), and an in-range ack raises lastAck to the max. -/
theorem c3_ack_handling_witness :
    step 0 ({ maxAckable := 4 } : SessionSt) (.ackMsg 9) =
      ({ ({ maxAckable := 4 } : SessionSt) with closed := true }, [.closeFrame]) ∧
    (step 0 ({ maxAckable := 4 } : SessionSt) (.ackMsg 3)).1.lastAck =
      max ({ maxAckable := 4 } : SessionSt).lastAck 3 := by
  constructor
  · exact (c3_ack_handling 0).1 { maxAckable := 4 } 9 rfl (by decide)
  · exact ((c3_ack_handling 0).2.1 { maxAckable := 4 } 3 rfl (by decide)).1

/-!  ## C4: retransmission  -/

/-- Any single step other than a retransmission tick never moves the write
cursor backwards, and any data frame it emits starts exactly at the cursor. -/
theorem step_no_tick_emits (id : Int) (s : SessionSt) (e : Ev) (hne : e ≠ .tick) :
    s.writeIndex ≤ (step id s e).1.writeIndex ∧
    ∀ pos n, Out.dataFrame pos n ∈ (step id s e).2 → pos = s.writeIndex := by
  cases e with
  | dataMsg pos b =>
    simp only [step]
    split_ifs with hc
    · simp
    · unfold appendRead
      split_ifs <;> simp
  | ackMsg len =>
    simp only [step]
    split_ifs <;> simp
  | readCall blen =>
    simp only [step]
    unfold sessionRead
    split_ifs <;> simp
  | appWrite b =>
    simp only [step]
    unfold sessionWrite
    split_ifs <;> simp
  | tick => exact absurd rfl hne
  | send =>
    simp only [step]
    split_ifs with hc
    · simp
    · unfold tryWrite
      split_ifs <;> simp
  | closeEv => simp [step]

/-- Over a tick-free trace, every emitted data frame starts at or after the
cursor the trace began with. -/
theorem run_no_tick (id : Int) (evs : List Ev) (hnt : Ev.tick ∉ evs) :
    ∀ s : SessionSt,
    s.writeIndex ≤ (run id s evs).1.writeIndex ∧
    ∀ pos n, Out.dataFrame pos n ∈ (run id s evs).2 → s.writeIndex ≤ pos := by
  induction evs with
  | nil =>
    intro s
    exact ⟨le_refl _, by simp [run]⟩
  | cons e evs ih =>
    intro s
    have hne : e ≠ Ev.tick := by
      intro h; exact hnt (by simp [h])
    have hnt2 : Ev.tick ∉ evs := fun h => hnt (by simp [h])
    have hstep := step_no_tick_emits id s e hne
    have hrest := ih hnt2 (step id s e).1
    simp only [run]
    constructor
    · exact le_trans hstep.1 hrest.1
    · intro pos n hm
      rw [List.mem_append] at hm
      rcases hm with hm | hm
      · exact le_of_eq (hstep.2 pos n hm).symm
      · exact le_trans hstep.1 (hrest.2 pos n hm)

/-- C4.  (1) A retransmission tick on an open session resets the write cursor
to the current lastAck (emitting nothing), so the unacknowledged suffix of
the send buffer is re-sent from there.  (2) On any tick-free stretch every
emitted data frame starts at or after the cursor at the start of the stretch.
(3) Hence after a tick, until the next tick, no emitted frame covers data
below the lastAck sampled at that tick: `send_buffer[0 .. last_ack]` is never
retransmitted, only `send_buffer[last_ack .. send_cursor]` is. -/
theorem c4_retransmission (id : Int) :
    (∀ s : SessionSt, s.closed = false →
      step id s .tick = ({ s with writeIndex := s.lastAck }, [])) ∧
    (∀ (s : SessionSt) (evs : List Ev), Ev.tick ∉ evs →
      ∀ pos n, Out.dataFrame pos n ∈ (run id s evs).2 → s.writeIndex ≤ pos) ∧
    (∀ (evs1 evs2 : List Ev), Ev.tick ∉ evs2 →
      (run id initSession evs1).1.closed = false →
      ∀ pos n,
        Out.dataFrame pos n ∈ (run id (step id (run id initSession evs1).1 .tick).1 evs2).2 →
        (run id initSession evs1).1.lastAck ≤ pos) := by
  have htick : ∀ s : SessionSt, s.closed = false →
      step id s .tick = ({ s with writeIndex := s.lastAck }, []) := by
    intro s hc
    simp only [step]
    rw [if_neg (by simp [hc])]
  refine ⟨htick, ?_, ?_⟩
  · intro s evs hnt pos n hm
    exact (run_no_tick id evs hnt s).2 pos n hm
  · intro evs1 evs2 hnt hopen pos n hm
    rw [htick _ hopen] at hm
    have := (run_no_tick id evs2 hnt _).2 pos n hm
    simpa using this

/-- Witness for `c4_retransmission`: after an application write, a tick and a
re-send, the frame the send emits (covering offsets [0, 2)) starts at or
after the lastAck sampled at the tick. -/
theorem c4_retransmission_witness :
    (run 0 initSession [.appWrite [104, 105]]).1.lastAck ≤ 0 :=
  (c4_retransmission 0).2.2 [.appWrite [104, 105]] [.send] (by decide) (by decide)
    0 2 (by decide)

/-!  ## C5: pack is maximal and bounded  -/

theorem packLoop_le_length (cs : Nat) (data : List Nat) :
    ∀ i, packLoop cs data i ≤ data.length := by
  induction data with
  | nil => intro i; simp [packLoop]
  | cons c rest ih =>
    intro i
    simp only [packLoop, List.length_cons]
    split_ifs
    · exact Nat.add_le_add_right (ih _) 1
    · exact Nat.zero_le _
    · exact Nat.add_le_add_right (ih _) 1
    · exact Nat.zero_le _

/-- The loop never overruns the budget: starting with `i` output bytes
already counted, the escaped length of the consumed prefix fits in `cs`. -/
theorem packLoop_fits (cs : Nat) (data : List Nat) :
    ∀ i, i ≤ cs → i + escLen (data.take (packLoop cs data i)) ≤ cs := by
  induction data with
  | nil => intro i h; simpa [packLoop, escLen]
  | cons c rest ih =>
    intro i h
    simp only [packLoop]
    split_ifs with h1 h2 h3
    · rw [List.take_succ_cons, escLen_cons, if_pos h2]
      have := ih (i + 2) (by omega)
      omega
    · simpa [escLen] using le_of_lt h1
    · rw [List.take_succ_cons, escLen_cons, if_neg h2]
      have := ih (i + 1) (by omega)
      omega
    · simpa [escLen] using h

/-- The loop is greedy-maximal: any prefix whose escaped length fits in the
budget is no longer than what the loop consumes. -/
theorem packLoop_maximal (cs : Nat) (data : List Nat) :
    ∀ k i, k ≤ data.length → i + escLen (data.take k) ≤ cs →
      k ≤ packLoop cs data i := by
  induction data with
  | nil =>
    intro k i hk _
    simp only [List.length_nil, Nat.le_zero] at hk
    simp [hk, packLoop]
  | cons c rest ih =>
    intro k i hk hfit
    cases k with
    | zero => exact Nat.zero_le _
    | succ k =>
      rw [List.take_succ_cons, escLen_cons] at hfit
      simp only [packLoop]
      by_cases h2 : escChar c
      · rw [if_pos h2] at hfit
        have h1 : i < cs := by omega
        have h3 : i + 1 < cs := by omega
        rw [if_pos h1, if_pos h2, if_pos h3]
        exact Nat.add_le_add_right
          (ih k (i + 2) (Nat.le_of_succ_le_succ hk) (by omega)) 1
      · rw [if_neg h2] at hfit
        have h1 : i < cs := by omega
        rw [if_pos h1, if_neg h2]
        exact Nat.add_le_add_right
          (ih k (i + 1) (Nat.le_of_succ_le_succ hk) (by omega)) 1

/-- The bytes written into `m.Data` are exactly the escaped form of the
consumed prefix, length-wise. -/
theorem packOut_length (cs : Nat) (data : List Nat) :
    ∀ i, (packOut cs data i).length = escLen (data.take (packLoop cs data i)) := by
  induction data with
  | nil => intro i; simp [packOut, packLoop, escLen]
  | cons c rest ih =>
    intro i
    simp only [packOut, packLoop]
    split_ifs with h1 h2 h3
    · rw [List.take_succ_cons, escLen_cons, if_pos h2]
      simp only [List.length_cons, ih (i + 2)]
      omega
    · simp [escLen]
    · rw [List.take_succ_cons, escLen_cons, if_neg h2]
      simp only [List.length_cons, ih (i + 1)]
      omega
    · simp [escLen]

/-- At most 10 decimal digits for a value bounded by maxInt. -/
theorem natDecimal_length_le (n : Nat) (h : n ≤ 2147483647) :
    (natDecimal n).length ≤ 10 := by
  unfold natDecimal
  split_ifs with h0
  · simp
  · simp only [List.length_reverse, List.length_map]
    by_contra hlen
    push_neg at hlen
    have hp := Nat.base_pow_length_digits_le 10 n (by norm_num) h0
    have hpow : (10 : Nat) ^ 11 ≤ 10 ^ (Nat.digits 10 n).length :=
      Nat.pow_le_pow_right (by norm_num) (by omega)
    have h10 : (10 : Nat) ^ 11 ≤ 10 * n := le_trans hpow hp
    norm_num at h10
    omega

theorem intDecimal_nonneg_eq (n : Int) (h : 0 ≤ n) :
    intDecimal n = natDecimal n.toNat := by
  unfold intDecimal
  rw [if_neg (not_lt.mpr h)]

theorem strBytes_dataHeader : (strBytes "/data/").length = 6 := rfl

/-- The `/data/SESSION/POS//` header is at most 29 bytes for in-range
session and pos. -/
theorem packHeader_length_le (session pos : Int)
    (hs : 0 ≤ session ∧ session ≤ maxInt) (hp : 0 ≤ pos ∧ pos ≤ maxInt) :
    (packHeader session pos).length ≤ 29 := by
  unfold packHeader
  rw [intDecimal_nonneg_eq _ hs.1, intDecimal_nonneg_eq _ hp.1]
  have h1 : (natDecimal session.toNat).length ≤ 10 :=
    natDecimal_length_le _ (by unfold maxInt at hs; omega)
  have h2 : (natDecimal pos.toNat).length ≤ 10 :=
    natDecimal_length_le _ (by unfold maxInt at hp; omega)
  simp only [List.length_append, strBytes_dataHeader, List.length_cons,
    List.length_singleton, List.length_nil]
  omega

/-- C5.  For in-range session and pos, `pack` (1) consumes at most the whole
source, (2,3) produces a frame whose fully encoded size — header plus the
escaped payload, every '/' and '\' counted as two bytes — is at most 999,
and (4) consumes the maximal number of source bytes whose escaped encoding
fits that budget: in particular a final byte whose escape would overflow is
not consumed. -/
theorem c5_pack_maximal_bounded (session pos : Int) (data : List Nat)
    (hs : 0 ≤ session ∧ session ≤ maxInt) (hp : 0 ≤ pos ∧ pos ≤ maxInt) :
    pack session pos data ≤ data.length ∧
    (packHeader session pos).length + (packData session pos data).length ≤ 999 ∧
    (packHeader session pos).length + escLen (data.take (pack session pos data)) ≤ 999 ∧
    ∀ k, k ≤ data.length →
      (packHeader session pos).length + escLen (data.take k) ≤ 999 →
      k ≤ pack session pos data := by
  have hh : (packHeader session pos).length ≤ 29 := packHeader_length_le session pos hs hp
  have hM : packMaxCopy session pos = (999 : Int) - (packHeader session pos).length := by
    unfold packMaxCopy maxMessageSize
    norm_num
  have hMnn : 0 ≤ packMaxCopy session pos := by omega
  have hcs : (packCopySize session pos data : Int) ≤ packMaxCopy session pos := by
    unfold packCopySize
    rw [Int.toNat_of_nonneg (le_min hMnn (Int.natCast_nonneg _))]
    exact min_le_left _ _
  have hcs999 : (packHeader session pos).length + packCopySize session pos data ≤ 999 := by
    omega
  have hbound : escLen (data.take (pack session pos data)) ≤ packCopySize session pos data := by
    have h := packLoop_fits (packCopySize session pos data) data 0 (Nat.zero_le _)
    simpa using h
  have houtlen : (packData session pos data).length =
      escLen (data.take (pack session pos data)) :=
    packOut_length (packCopySize session pos data) data 0
  refine ⟨packLoop_le_length _ data 0, ?_, ?_, ?_⟩
  · omega
  · omega
  · intro k hk hfit
    have htot : escLen (data.take k) ≤ data.length + slashes data :=
      le_trans (escLen_take_le data k) (le_of_eq (escLen_eq_length_add_slashes data))
    have hfitM : (escLen (data.take k) : Int) ≤ packMaxCopy session pos := by omega
    have hfitcs : escLen (data.take k) ≤ packCopySize session pos data := by
      unfold packCopySize
      rw [Int.le_toNat (le_min hMnn (Int.natCast_nonneg _))]
      refine le_min hfitM ?_
      exact_mod_cast htot
    have := packLoop_maximal (packCopySize session pos data) data k 0 hk
      (by simpa using hfitcs)
    exact this

/-- Witness for `c5_pack_maximal_bounded` at session 0, pos 0 and a payload
ending in a byte that needs an escape. -/
theorem c5_pack_maximal_bounded_witness :
    pack 0 0 [97, 47] ≤ ([97, 47] : List Nat).length ∧
    (packHeader 0 0).length + (packData 0 0 [97, 47]).length ≤ 999 ∧
    (packHeader 0 0).length + escLen (([97, 47] : List Nat).take (pack 0 0 [97, 47])) ≤ 999 ∧
    (2 ≤ ([97, 47] : List Nat).length →
      (packHeader 0 0).length + escLen (([97, 47] : List Nat).take 2) ≤ 999 →
      2 ≤ pack 0 0 [97, 47]) :=
  have h := c5_pack_maximal_bounded 0 0 [97, 47] (by decide) (by decide)
  ⟨h.1, h.2.1, h.2.2.1, h.2.2.2 2⟩

/-!  ## Parser support lemmas (for C6 and C7)  -/

theorem connectTok_clean : ∀ c ∈ connectTok, escChar c = false := by decide

theorem dataTok_clean : ∀ c ∈ dataTok, escChar c = false := by decide

theorem ackTok_clean : ∀ c ∈ ackTok, escChar c = false := by decide

theorem closeTok_clean : ∀ c ∈ closeTok, escChar c = false := by decide

/-- `parseField` on a field free of 47/92 bytes followed by a slash returns
the field and the remainder. -/
theorem parseField_clean (f rest : List Nat) (hf : ∀ c ∈ f, escChar c = false) :
    parseField (f ++ 47 :: rest) = some (f, rest) := by
  induction f with
  | nil =>
    rw [List.nil_append, parseField.eq_def]
    simp
  | cons c f ih =>
    have hc : ¬c = 47 ∧ ¬c = 92 := by
      have := hf c (by simp)
      simp [escChar] at this
      exact this
    rw [List.cons_append, parseField.eq_def]
    simp only []
    rw [if_neg hc.2, if_neg hc.1, ih (fun x hx => hf x (by simp [hx]))]

theorem natDecimal_ne_nil (n : Nat) : natDecimal n ≠ [] := by
  unfold natDecimal
  split_ifs with h0
  · simp
  · simp [Nat.digits_ne_nil_iff_ne_zero, h0]

theorem natDecimal_digits (n : Nat) : ∀ c ∈ natDecimal n, 48 ≤ c ∧ c ≤ 57 := by
  unfold natDecimal
  split_ifs with h0
  · intro c hc
    simp at hc
    omega
  · intro c hc
    simp only [List.mem_reverse, List.mem_map] at hc
    obtain ⟨d, hd, rfl⟩ := hc
    have := Nat.digits_lt_base (by norm_num) hd
    omega

theorem natDecimal_clean (n : Nat) : ∀ c ∈ natDecimal n, escChar c = false := by
  intro c hc
  have := natDecimal_digits n c hc
  simp [escChar]
  omega

theorem digitVal_rev_map (L : List Nat) :
    digitVal ((L.map (fun d => d + 48)).reverse) = Nat.ofDigits 10 L := by
  induction L with
  | nil => rfl
  | cons d L ih =>
    simp only [List.map_cons, List.reverse_cons]
    unfold digitVal
    rw [List.foldl_append]
    simp only [List.foldl_cons, List.foldl_nil]
    unfold digitVal at ih
    rw [ih, Nat.ofDigits_cons]
    omega

theorem digitVal_natDecimal (n : Nat) : digitVal (natDecimal n) = n := by
  unfold natDecimal
  split_ifs with h0
  · simp [h0, digitVal]
  · rw [digitVal_rev_map, Nat.ofDigits_digits]

theorem allDigits_natDecimal (n : Nat) : allDigits (natDecimal n) = true := by
  unfold allDigits
  rw [Bool.and_eq_true, List.all_eq_true]
  constructor
  · cases hnd : natDecimal n with
    | nil => exact absurd hnd (natDecimal_ne_nil n)
    | cons c cs => simp
  · intro x hx
    have := natDecimal_digits n x hx
    unfold isDigitByte
    exact decide_eq_true this

theorem atoiUnsigned_natDecimal (n : Nat) : atoiUnsigned (natDecimal n) = some n := by
  unfold atoiUnsigned
  rw [if_pos (allDigits_natDecimal n), digitVal_natDecimal]

theorem goAtoi_natDecimal (n : Nat) (h : (n : Int) ≤ int64Max) :
    goAtoi (natDecimal n) = some (n : Int) := by
  obtain ⟨c, cs, hcons⟩ : ∃ c cs, natDecimal n = c :: cs := by
    cases hnd : natDecimal n with
    | nil => exact absurd hnd (natDecimal_ne_nil n)
    | cons c cs => exact ⟨c, cs, rfl⟩
  have hc : 48 ≤ c ∧ c ≤ 57 := natDecimal_digits n c (by rw [hcons]; simp)
  rw [hcons]
  simp only [goAtoi]
  rw [if_neg (by omega), if_neg (by omega), ← hcons, atoiUnsigned_natDecimal]
  simp only []
  rw [if_neg (by omega)]

theorem parseInt_natDecimal (n : Nat) (h : (n : Int) ≤ maxInt) :
    parseInt (natDecimal n) = some (n : Int) := by
  unfold parseInt
  rw [goAtoi_natDecimal n (by unfold maxInt at h; unfold int64Max; omega)]
  simp only []
  rw [if_neg (by omega)]

theorem parseInt_intDecimal (n : Int) (h0 : 0 ≤ n) (h : n ≤ maxInt) :
    parseInt (intDecimal n) = some n := by
  rw [intDecimal_nonneg_eq n h0, parseInt_natDecimal n.toNat (by omega)]
  congr 1
  omega

theorem intDecimal_clean (n : Int) (h0 : 0 ≤ n) :
    ∀ c ∈ intDecimal n, escChar c = false := by
  rw [intDecimal_nonneg_eq n h0]
  exact natDecimal_clean n.toNat

/-- `parseData` on a payload free of 47/92 bytes is the identity (the clone
fast path of parseData). -/
theorem parseData_clean (bs : List Nat) (h : ∀ c ∈ bs, escChar c = false) :
    parseData bs = some bs := by
  unfold parseData
  rw [if_pos]
  rw [List.all_eq_true]
  intro x hx
  simp [h x hx]

/-!  ## parseMessage on well-formed encodings  -/

theorem parseMessage_connect (s : Int) (h0 : 0 ≤ s) (h : s ≤ maxInt) :
    parseMessage (47 :: (connectTok ++ 47 :: (intDecimal s ++ 47 :: []))) =
      some { type_ := connectTok, session := s } := by
  rw [parseMessage.eq_def]
  simp only []
  rw [if_neg (by simp)]
  rw [parseField_clean _ _ connectTok_clean]
  simp only []
  rw [if_neg (by simp)]
  rw [parseField_clean _ _ (intDecimal_clean s h0)]
  simp only []
  rw [parseInt_intDecimal s h0 h]
  simp only []
  rw [if_pos trivial, if_pos trivial]

theorem parseMessage_close (s : Int) (h0 : 0 ≤ s) (h : s ≤ maxInt) :
    parseMessage (47 :: (closeTok ++ 47 :: (intDecimal s ++ 47 :: []))) =
      some { type_ := closeTok, session := s } := by
  rw [parseMessage.eq_def]
  simp only []
  rw [if_neg (by simp)]
  rw [parseField_clean _ _ closeTok_clean]
  simp only []
  rw [if_neg (by simp)]
  rw [parseField_clean _ _ (intDecimal_clean s h0)]
  simp only []
  rw [parseInt_intDecimal s h0 h]
  simp only []
  rw [if_neg (by decide), if_neg (by decide), if_neg (by decide), if_pos trivial]

theorem parseMessage_ack (s len : Int) (hs0 : 0 ≤ s) (hs : s ≤ maxInt)
    (hl0 : 0 ≤ len) (hl : len ≤ maxInt) :
    parseMessage (47 :: (ackTok ++ 47 :: (intDecimal s ++ 47 :: (intDecimal len ++ 47 :: [])))) =
      some { type_ := ackTok, session := s, length := len } := by
  rw [parseMessage.eq_def]
  simp only []
  rw [if_neg (by simp)]
  rw [parseField_clean _ _ ackTok_clean]
  simp only []
  rw [if_neg (by simp)]
  rw [parseField_clean _ _ (intDecimal_clean s hs0)]
  simp only []
  rw [parseInt_intDecimal s hs0 hs]
  simp only []
  rw [if_neg (by decide), if_neg (by decide), if_pos trivial]
  rw [parseField_clean _ _ (intDecimal_clean len hl0)]
  simp only []
  rw [if_neg (by simp)]
  rw [parseInt_intDecimal len hl0 hl]

theorem parseMessage_data (s p : Int) (payload : List Nat)
    (hs0 : 0 ≤ s) (hs : s ≤ maxInt) (hp0 : 0 ≤ p) (hp : p ≤ maxInt)
    (hclean : ∀ c ∈ payload, escChar c = false) :
    parseMessage (47 :: (dataTok ++ 47 ::
        (intDecimal s ++ 47 :: (intDecimal p ++ 47 :: (payload ++ 47 :: []))))) =
      some { type_ := dataTok, session := s, pos := p, data := payload } := by
  rw [parseMessage.eq_def]
  simp only []
  rw [if_neg (by simp)]
  rw [parseField_clean _ _ dataTok_clean]
  simp only []
  rw [if_neg (by simp)]
  rw [parseField_clean _ _ (intDecimal_clean s hs0)]
  simp only []
  rw [parseInt_intDecimal s hs0 hs]
  simp only []
  rw [if_neg (by decide), if_pos trivial]
  rw [parseField_clean _ _ (intDecimal_clean p hp0)]
  simp only []
  rw [parseInt_intDecimal p hp0 hp]
  simp only []
  rw [parseField_clean _ _ hclean]
  simp only []
  rw [if_neg (by simp)]
  rw [parseData_clean _ hclean]

/-!  ## C6: encode/parse round trip  -/

theorem strBytes_connectHdr : strBytes "/connect/" = 47 :: (connectTok ++ [47]) := by decide

theorem strBytes_dataHdr : strBytes "/data/" = 47 :: (dataTok ++ [47]) := by decide

theorem strBytes_ackHdr : strBytes "/ack/" = 47 :: (ackTok ++ [47]) := by decide

theorem strBytes_closeHdr : strBytes "/close/" = 47 :: (closeTok ++ [47]) := by decide

/-- C6 counterexample.  The valid data frame with payload `[92, 92]` (two
backslashes — within all numeric bounds, encoding 13 ≤ 999 bytes) does not
round-trip byte-for-byte: `encode` emits `Msg.Data` raw while `parseData`
unescapes, so the re-parsed payload is `[92]`. -/
theorem c6_counterexample :
    encode { type_ := dataTok, session := 0, pos := 0, data := [92, 92] } =
      some [47, 100, 97, 116, 97, 47, 48, 47, 48, 47, 92, 92, 47] ∧
    ([47, 100, 97, 116, 97, 47, 48, 47, 48, 47, 92, 92, 47] : List Nat).length ≤ 999 ∧
    parseMessage [47, 100, 97, 116, 97, 47, 48, 47, 48, 47, 92, 92, 47] =
      some { type_ := dataTok, session := 0, pos := 0, data := [92] } ∧
    ({ type_ := dataTok, session := 0, pos := 0, data := [92] } : Msg) ≠
      { type_ := dataTok, session := 0, pos := 0, data := [92, 92] } := by
  refine ⟨by decide, by decide, by decide, by decide⟩

/-- C6 (amended).  `parseMessage (encode f) = f` for every valid frame `f`
whose encoding fits the 999-byte budget, *provided* a data frame's payload
contains no 47/92 byte ('/' or '\'): `Msg.Data` holds wire (escaped) bytes on
the send side, and parsing unescapes, so byte-for-byte equality holds exactly
on escape-free payloads (otherwise the parsed payload is the unescaped form,
see the counterexample). -/
theorem c6_encode_parse_roundtrip (m : Msg) (enc : List Nat)
    (henc : encode m = some enc) (_hsize : enc.length ≤ 999)
    (hsess : 0 ≤ m.session ∧ m.session ≤ maxInt)
    (hdata : m.type_ = dataTok →
      0 ≤ m.pos ∧ m.pos ≤ maxInt ∧ m.length = 0 ∧ ∀ c ∈ m.data, escChar c = false)
    (hack : m.type_ = ackTok →
      0 ≤ m.length ∧ m.length ≤ maxInt ∧ m.pos = 0 ∧ m.data = [])
    (hconn : m.type_ = connectTok ∨ m.type_ = closeTok →
      m.pos = 0 ∧ m.data = [] ∧ m.length = 0) :
    parseMessage enc = some m := by
  unfold encode at henc
  by_cases h1 : m.type_ = connectTok
  · rw [if_pos h1] at henc
    obtain ⟨hp, hd, hl⟩ := hconn (Or.inl h1)
    simp only [Option.some.injEq] at henc
    have henc' : enc = 47 :: (connectTok ++ 47 :: (intDecimal m.session ++ 47 :: [])) := by
      rw [← henc, strBytes_connectHdr]
      simp
    rw [henc', parseMessage_connect m.session hsess.1 hsess.2]
    obtain ⟨mt, ms, mp, md, ml⟩ := m
    simp_all
  · rw [if_neg h1] at henc
    by_cases h2 : m.type_ = dataTok
    · rw [if_pos h2] at henc
      obtain ⟨hp0, hp, hl, hclean⟩ := hdata h2
      simp only [Option.some.injEq] at henc
      have henc' : enc = 47 :: (dataTok ++ 47 ::
          (intDecimal m.session ++ 47 :: (intDecimal m.pos ++ 47 :: (m.data ++ 47 :: [])))) := by
        rw [← henc, strBytes_dataHdr]
        simp
      rw [henc', parseMessage_data m.session m.pos m.data hsess.1 hsess.2 hp0 hp hclean]
      obtain ⟨mt, ms, mp, md, ml⟩ := m
      simp_all
    · rw [if_neg h2] at henc
      by_cases h3 : m.type_ = ackTok
      · rw [if_pos h3] at henc
        obtain ⟨hl0, hl, hp, hd⟩ := hack h3
        simp only [Option.some.injEq] at henc
        have henc' : enc = 47 :: (ackTok ++ 47 ::
            (intDecimal m.session ++ 47 :: (intDecimal m.length ++ 47 :: []))) := by
          rw [← henc, strBytes_ackHdr]
          simp
        rw [henc', parseMessage_ack m.session m.length hsess.1 hsess.2 hl0 hl]
        obtain ⟨mt, ms, mp, md, ml⟩ := m
        simp_all
      · rw [if_neg h3] at henc
        by_cases h4 : m.type_ = closeTok
        · rw [if_pos h4] at henc
          obtain ⟨hp, hd, hl⟩ := hconn (Or.inr h4)
          simp only [Option.some.injEq] at henc
          have henc' : enc = 47 :: (closeTok ++ 47 :: (intDecimal m.session ++ 47 :: [])) := by
            rw [← henc, strBytes_closeHdr]
            simp
          rw [henc', parseMessage_close m.session hsess.1 hsess.2]
          obtain ⟨mt, ms, mp, md, ml⟩ := m
          simp_all
        · rw [if_neg h4] at henc
          cases henc

/-- Witness for `c6_encode_parse_roundtrip` on a concrete connect frame. -/
theorem c6_encode_parse_roundtrip_witness :
    parseMessage [47, 99, 111, 110, 110, 101, 99, 116, 47, 48, 47] =
      some { type_ := connectTok, session := 0 } :=
  c6_encode_parse_roundtrip { type_ := connectTok, session := 0 }
    [47, 99, 111, 110, 110, 101, 99, 116, 47, 48, 47]
    (by decide) (by decide) (by decide)
    (fun h => absurd h (by decide))
    (fun h => absurd h (by decide))
    (fun _ => ⟨rfl, rfl, rfl⟩)

/-!  ## C7: what parseMessage accepts and rejects  -/

theorem goAtoi_plus (n : Nat) (h : (n : Int) ≤ int64Max) :
    goAtoi (43 :: natDecimal n) = some (n : Int) := by
  simp only [goAtoi]
  rw [if_pos trivial, atoiUnsigned_natDecimal]
  simp only []
  rw [if_neg (by omega)]

theorem parseInt_plus (n : Nat) (h : (n : Int) ≤ maxInt) :
    parseInt (43 :: natDecimal n) = some (n : Int) := by
  unfold parseInt
  rw [goAtoi_plus n (by unfold maxInt at h; unfold int64Max; omega)]
  simp only []
  rw [if_neg (by omega)]

theorem goAtoi_minus (n : Nat) (h : (n : Int) ≤ int64Max) :
    goAtoi (45 :: natDecimal n) = some (-(n : Int)) := by
  simp only [goAtoi]
  rw [if_neg (by decide), if_pos trivial, atoiUnsigned_natDecimal]
  simp only []
  rw [if_neg (by omega)]

theorem parseInt_minus (n : Nat) (h : (n : Int) ≤ maxInt) :
    parseInt (45 :: natDecimal n) = some (-(n : Int)) := by
  unfold parseInt
  rw [goAtoi_minus n (by unfold maxInt at h; unfold int64Max; omega)]
  simp only []
  rw [if_neg (by unfold maxInt; omega)]

theorem goAtoi_natDecimal_big (n : Nat) (h : (n : Int) > int64Max) :
    goAtoi (natDecimal n) = none := by
  obtain ⟨c, cs, hcons⟩ : ∃ c cs, natDecimal n = c :: cs := by
    cases hnd : natDecimal n with
    | nil => exact absurd hnd (natDecimal_ne_nil n)
    | cons c cs => exact ⟨c, cs, rfl⟩
  have hc : 48 ≤ c ∧ c ≤ 57 := natDecimal_digits n c (by rw [hcons]; simp)
  rw [hcons]
  simp only [goAtoi]
  rw [if_neg (by omega), if_neg (by omega), ← hcons, atoiUnsigned_natDecimal]
  simp only []
  rw [if_pos h]

theorem parseInt_big (n : Nat) (h : (n : Int) > maxInt) :
    parseInt (natDecimal n) = none := by
  unfold parseInt
  by_cases h64 : (n : Int) ≤ int64Max
  · rw [goAtoi_natDecimal n h64]
    simp only []
    rw [if_pos h]
  · rw [goAtoi_natDecimal_big n (by omega)]

/-- A backslash followed by a non-escapable byte makes `parseField` fail,
wherever it sits after a clean prefix. -/
theorem parseField_badEscape (pre : List Nat) (c : Nat) (rest : List Nat)
    (hpre : ∀ x ∈ pre, escChar x = false) (h47 : c ≠ 47) (h92 : c ≠ 92) :
    parseField (pre ++ 92 :: c :: rest) = none := by
  induction pre with
  | nil =>
    rw [List.nil_append, parseField.eq_def]
    simp only []
    rw [if_pos trivial]
    rw [if_neg (by rintro (h | h) <;> simp_all)]
  | cons a pre ih =>
    have ha : ¬a = 47 ∧ ¬a = 92 := by
      have := hpre a (by simp)
      simp [escChar] at this
      exact this
    rw [List.cons_append, parseField.eq_def]
    simp only []
    rw [if_neg ha.2, if_neg ha.1, ih (fun x hx => hpre x (by simp [hx]))]

/-- Reduction of `parseMessage` on a connect wire shape with an arbitrary
session field. -/
theorem parseMessage_connect_field (field rest2 : List Nat)
    (hf : ∀ c ∈ field, escChar c = false) :
    parseMessage (47 :: (connectTok ++ 47 :: (field ++ 47 :: rest2))) =
      match parseInt field with
      | none => none
      | some s =>
        if rest2 = [] then some { type_ := connectTok, session := s } else none := by
  rw [parseMessage.eq_def]
  simp only []
  rw [if_neg (by simp), parseField_clean _ _ connectTok_clean]
  simp only []
  rw [if_neg (by simp), parseField_clean _ _ hf]
  simp only []
  cases hpi : parseInt field with
  | none => rfl
  | some s =>
    simp only []
    rw [if_pos trivial]

/-- Reduction of `parseMessage` on a data wire shape with in-range numeric
fields and an arbitrary tail after the pos field's slash. -/
theorem parseMessage_data_fields (s p : Nat) (payloadPart : List Nat)
    (hs : (s : Int) ≤ maxInt) (hp : (p : Int) ≤ maxInt) :
    parseMessage (47 :: (dataTok ++ 47 ::
        (natDecimal s ++ 47 :: (natDecimal p ++ 47 :: payloadPart)))) =
      match parseField payloadPart with
      | none => none
      | some (rawData, rest4) =>
        if rest4 ≠ [] then none
        else
          match parseData rawData with
          | none => none
          | some payload =>
            some { type_ := dataTok, session := (s : Int), pos := (p : Int),
                   data := payload } := by
  rw [parseMessage.eq_def]
  simp only []
  rw [if_neg (by simp), parseField_clean _ _ dataTok_clean]
  simp only []
  rw [if_neg (by simp), parseField_clean _ _ (natDecimal_clean s)]
  simp only []
  rw [parseInt_natDecimal s hs]
  simp only []
  rw [if_neg (by decide), if_pos trivial]
  rw [parseField_clean _ _ (natDecimal_clean p)]
  simp only []
  rw [parseInt_natDecimal p hp]

theorem natDecimal_zero : natDecimal 0 = [48] := rfl

theorem dataTok_length : dataTok.length = 4 := by decide

/-- C7 counterexample.  The claim says a leading '+' in a numeric field makes
the parser fail; in fact `strconv.Atoi` accepts it and `/connect/+1/`
parses successfully. -/
theorem c7_counterexample :
    parseMessage (strBytes "/connect/+1/") =
      some { type_ := connectTok, session := 1 } := by
  decide

/-- C7 (amended).  `parseMessage` fails on: empty input (1), a missing
leading '/' (2), an unknown type token (3), a numeric field that is not a
Go-`Atoi` integer — at least one digit after an optional single '+'/'-' sign
(7) — or whose value exceeds 2^31 - 1 (6), trailing bytes after the final
'/' (8), a '\' inside the data payload not followed by '/' or '\' (9), and
an unescaped '/' inside the payload (10, via the trailing-bytes check).
Contrary to the claim, a '+' or '-' sign is accepted (4, 5), and there is no
overall-length check: a 1001-byte message parses (11) — the 999-byte cap
comes from the caller's read buffer. -/
theorem c7_parse_accepts_rejects :
    parseMessage [] = none ∧
    (∀ (c : Nat) (bs : List Nat), c ≠ 47 → parseMessage (c :: bs) = none) ∧
    (∀ (t rest : List Nat), (∀ c ∈ t, escChar c = false) →
      ¬(t = connectTok ∨ t = dataTok ∨ t = ackTok ∨ t = closeTok) →
      parseMessage (47 :: (t ++ 47 :: rest)) = none) ∧
    (∀ n : Nat, (n : Int) ≤ maxInt →
      parseMessage (47 :: (connectTok ++ 47 :: (43 :: natDecimal n ++ 47 :: []))) =
        some { type_ := connectTok, session := (n : Int) }) ∧
    (∀ n : Nat, (n : Int) ≤ maxInt →
      parseMessage (47 :: (connectTok ++ 47 :: (45 :: natDecimal n ++ 47 :: []))) =
        some { type_ := connectTok, session := -(n : Int) }) ∧
    (∀ n : Nat, (n : Int) > maxInt →
      parseMessage (47 :: (connectTok ++ 47 :: (natDecimal n ++ 47 :: []))) = none) ∧
    (∀ (c : Nat) (bs : List Nat), isDigitByte c = false → c ≠ 43 → c ≠ 45 →
      c ≠ 47 → c ≠ 92 → (∀ x ∈ bs, escChar x = false) →
      parseMessage (47 :: (connectTok ++ 47 :: (c :: bs ++ 47 :: []))) = none) ∧
    (∀ (n : Nat) (extra : List Nat), (n : Int) ≤ maxInt → extra ≠ [] →
      parseMessage (47 :: (connectTok ++ 47 :: (natDecimal n ++ 47 :: extra))) = none) ∧
    (∀ (s p : Nat) (pre : List Nat) (c : Nat) (rest : List Nat),
      (s : Int) ≤ maxInt → (p : Int) ≤ maxInt →
      (∀ x ∈ pre, escChar x = false) → c ≠ 47 → c ≠ 92 →
      parseMessage (47 :: (dataTok ++ 47 :: (natDecimal s ++ 47 ::
        (natDecimal p ++ 47 :: (pre ++ 92 :: c :: rest))))) = none) ∧
    (∀ (s p : Nat) (pre mid : List Nat),
      (s : Int) ≤ maxInt → (p : Int) ≤ maxInt →
      (∀ x ∈ pre, escChar x = false) →
      parseMessage (47 :: (dataTok ++ 47 :: (natDecimal s ++ 47 ::
        (natDecimal p ++ 47 :: (pre ++ 47 :: (mid ++ 47 :: [])))))) = none) ∧
    ((47 :: (dataTok ++ 47 :: (natDecimal 0 ++ 47 :: (natDecimal 0 ++ 47 ::
        (List.replicate 990 97 ++ 47 :: []))))).length = 1001 ∧
      parseMessage (47 :: (dataTok ++ 47 :: (natDecimal 0 ++ 47 :: (natDecimal 0 ++ 47 ::
          (List.replicate 990 97 ++ 47 :: []))))) =
        some { type_ := dataTok, session := 0, pos := 0,
               data := List.replicate 990 97 }) := by
  have hrep : ∀ c ∈ List.replicate 990 (97 : Nat), escChar c = false := by
    intro c hc
    rw [List.eq_of_mem_replicate hc]
    decide
  refine ⟨rfl, ?_, ?_, ?_, ?_, ?_, ?_, ?_, ?_, ?_, ?_, ?_⟩
  · intro c bs hc
    rw [parseMessage.eq_def]
    simp only []
    rw [if_pos hc]
  · intro t rest hclean hunk
    rw [parseMessage.eq_def]
    simp only []
    rw [if_neg (by simp), parseField_clean _ _ hclean]
    simp only []
    rw [if_pos hunk]
  · intro n h
    have hfield : ∀ c ∈ 43 :: natDecimal n, escChar c = false := by
      intro c hc
      rcases List.mem_cons.mp hc with rfl | hc
      · decide
      · exact natDecimal_clean n c hc
    rw [parseMessage_connect_field _ [] hfield, parseInt_plus n h]
    simp only []
    rw [if_pos trivial]
  · intro n h
    have hfield : ∀ c ∈ 45 :: natDecimal n, escChar c = false := by
      intro c hc
      rcases List.mem_cons.mp hc with rfl | hc
      · decide
      · exact natDecimal_clean n c hc
    rw [parseMessage_connect_field _ [] hfield, parseInt_minus n h]
    simp only []
    rw [if_pos trivial]
  · intro n h
    rw [parseMessage_connect_field _ [] (natDecimal_clean n), parseInt_big n h]
  · intro c bs hcdig hc43 hc45 hc47 hc92 hbs
    have hfield : ∀ x ∈ c :: bs, escChar x = false := by
      intro x hx
      rcases List.mem_cons.mp hx with rfl | hx
      · simp [escChar, hc47, hc92]
      · exact hbs x hx
    have hAD : allDigits (c :: bs) = false := by
      unfold allDigits
      simp [List.all_cons, hcdig]
    have hAU : atoiUnsigned (c :: bs) = none := by
      unfold atoiUnsigned
      rw [if_neg (by simp [hAD])]
    have hGA : goAtoi (c :: bs) = none := by
      simp only [goAtoi]
      rw [if_neg hc43, if_neg hc45, hAU]
    have hPI : parseInt (c :: bs) = none := by
      unfold parseInt
      rw [hGA]
    rw [parseMessage_connect_field _ [] hfield, hPI]
  · intro n extra hn hextra
    rw [parseMessage_connect_field _ extra (natDecimal_clean n), parseInt_natDecimal n hn]
    simp only []
    rw [if_neg hextra]
  · intro s p pre c rest hs hp hpre h47 h92
    rw [parseMessage_data_fields s p _ hs hp,
      parseField_badEscape pre c rest hpre h47 h92]
  · intro s p pre mid hs hp hpre
    rw [parseMessage_data_fields s p _ hs hp, parseField_clean pre _ hpre]
    simp only []
    rw [if_pos (by simp)]
  · simp only [List.length_cons, List.length_append, List.length_replicate,
      List.length_nil, natDecimal_zero, dataTok_length]
  · rw [parseMessage_data_fields 0 0 (List.replicate 990 97 ++ 47 :: [])
      (by decide) (by decide)]
    rw [parseField_clean _ _ hrep]
    simp only []
    rw [if_neg (by simp), parseData_clean _ hrep]
    simp only [Nat.cast_zero]

/-- Witness for `c7_parse_accepts_rejects` at concrete inputs: the failure
on a missing slash and the acceptance of a '+'-signed field. -/
theorem c7_parse_accepts_rejects_witness :
    parseMessage (99 :: [47]) = none ∧
    parseMessage (47 :: (connectTok ++ 47 :: (43 :: natDecimal 1 ++ 47 :: []))) =
      some { type_ := connectTok, session := ((1 : Nat) : Int) } :=
  ⟨c7_parse_accepts_rejects.2.1 99 [47] (by decide),
    c7_parse_accepts_rejects.2.2.2.1 1 (by decide)⟩

end LRCP
